import Mathlib

/-!
Verification of `scraper.py` (Axis Max Life term-plan scraper).

Shallow embedding: the pure string-processing helpers are translated
directly (as structurally recursive functions over `List Char`, so that
they evaluate inside the kernel); browser-driven parts (`scrape_plan`,
the form handlers, the selector-fallback loops, the retry loop) are
modelled as pure functions of an explicit environment describing the
behaviour of the capability provider (which selectors resolve, which
navigation attempts succeed, which writes the form handlers perform);
`asyncio.gather` plus the semaphore is a small labelled transition
system over task states.
-/

set_option maxRecDepth 100000

namespace Scraper

/-! ### Python string primitives used by the scraper -/

/-- Python regex `\s` on the ASCII range (space, tab, newline, CR, VT, FF). -/
def isPyWs (c : Char) : Bool :=
  c = ' ' || c = '\t' || c = '\n' || c = '\r' || c = '\x0b' || c = '\x0c'

/-- Python regex word character `\w` on the ASCII range. -/
def isWordChar (c : Char) : Bool :=
  c.isAlphanum || c = '_'

/-- Python `str.lower()` on ASCII data. -/
def lowerL (s : List Char) : List Char :=
  s.map Char.toLower

/-- Python `str.rstrip(c)`: drop every trailing occurrence of `c`. -/
def pyRstrip (s : String) (c : Char) : String :=
  String.mk ((s.data.reverse.dropWhile (fun x => x = c)).reverse)

/-- Python `str.strip()`: drop leading and trailing whitespace. -/
def pyStrip (s : String) : String :=
  String.mk (((s.data.dropWhile isPyWs).reverse.dropWhile isPyWs).reverse)

/-- Python `str.title()` on ASCII data: the first letter of each maximal
letter run is uppercased, the following letters lowercased. -/
def pyTitleGo (prevAlpha : Bool) : List Char → List Char
  | [] => []
  | c :: rest =>
    if c.isAlpha then
      (if prevAlpha then c.toLower else c.toUpper) :: pyTitleGo true rest
    else
      c :: pyTitleGo false rest

/-- Python `str.title()`. -/
def pyTitle (s : String) : String :=
  String.mk (pyTitleGo false s.data)

/-- `startsWithL pat s` is true when `s` begins with `pat` (exact chars). -/
def startsWithL : List Char → List Char → Bool
  | [], _ => true
  | _ :: _, [] => false
  | a :: as, b :: bs => a = b && startsWithL as bs

/-- Substring occurrence test on char lists (`pat` occurs in `s`). -/
def containsSub (pat : List Char) : List Char → Bool
  | [] => startsWithL pat []
  | c :: rest => startsWithL pat (c :: rest) || containsSub pat rest

/-- Python `pat in s` on strings: substring containment. -/
def strContains (s pat : String) : Bool :=
  containsSub pat.data s.data

/-- Python `re.sub(r"\s+", " ", s)`: every whitespace run becomes one space. -/
def collapseWsGo (prevWs : Bool) : List Char → List Char
  | [] => []
  | c :: rest =>
    if isPyWs c then
      if prevWs then collapseWsGo true rest
      else ' ' :: collapseWsGo true rest
    else c :: collapseWsGo false rest

/-- Whitespace-run collapsing over a string. -/
def collapseWs (s : String) : String :=
  String.mk (collapseWsGo false s.data)

/-- Python `l[-1]` with a default for the empty list. -/
def lastD {α : Type} : List α → α → α
  | [], d => d
  | [x], _ => x
  | _ :: y :: rest, d => lastD (y :: rest) d

/-- Python `s.split(c)` for a one-character separator: `acc` is the
current chunk, reversed. -/
def splitOnCharGo (c : Char) : List Char → List Char → List (List Char)
  | [], acc => [acc.reverse]
  | x :: xs, acc =>
    if x = c then acc.reverse :: splitOnCharGo c xs []
    else splitOnCharGo c xs (x :: acc)

/-- Python `s.split(c)`. -/
def splitOnChar (c : Char) (s : List Char) : List (List Char) :=
  splitOnCharGo c s []

/-- Python `s.replace(pat, repl)`: leftmost non-overlapping occurrences.
The fuel argument only bounds the recursion; one unit is spent per
consumed character, so fuel `s.length` always suffices for the nonempty
patterns the scraper uses. -/
def replaceSubGo (pat repl : List Char) : Nat → List Char → List Char
  | _, [] => []
  | 0, s => s
  | fuel + 1, c :: rest =>
    if startsWithL pat (c :: rest) then
      repl ++ replaceSubGo pat repl fuel (List.drop pat.length (c :: rest))
    else
      c :: replaceSubGo pat repl fuel rest

/-- Python `s.replace(pat, repl)`. -/
def replaceSub (pat repl s : List Char) : List Char :=
  replaceSubGo pat repl s.length s

/-- `endsWithL suf s` is true when `s` ends with `suf`. -/
def endsWithL (suf s : List Char) : Bool :=
  startsWithL suf.reverse s.reverse

/-! ### The marketing-term stripping regex

`re.sub(r"\b(buy|best|online|in india|202\d|axis max life insurance)\b", "",
name, flags=re.IGNORECASE)`.  A pattern character is either a
case-insensitive literal or the digit class `\d`. -/

/-- One character of a regex alternative: case-insensitive literal or `\d`. -/
inductive PatChar where
  | lit (c : Char)
  | digit
  deriving DecidableEq

/-- Literal pattern from a string (matched case-insensitively). -/
def litPat (s : String) : List PatChar :=
  s.data.map PatChar.lit

/-- Match a pattern at the head of the input, returning the remainder. -/
def patMatch : List PatChar → List Char → Option (List Char)
  | [], s => some s
  | _ :: _, [] => none
  | PatChar.lit c :: ps, x :: xs =>
    if x.toLower = c.toLower then patMatch ps xs else none
  | PatChar.digit :: ps, x :: xs =>
    if x.isDigit then patMatch ps xs else none

/-- `\b` after the matched text: next char (if any) is not a word char. -/
def wordBoundaryAfter : List Char → Bool
  | [] => true
  | c :: _ => !isWordChar c

/-- Try one alternative at the current position; the trailing `\b` must hold. -/
def tryAlt (p : List PatChar) (s : List Char) : Option (List Char) :=
  match patMatch p s with
  | some r => if wordBoundaryAfter r then some r else none
  | none => none

/-- Try the alternation's branches in the order the regex lists them. -/
def tryAlts (s : List Char) : Option (List Char) :=
  (tryAlt (litPat "buy") s).orElse fun _ =>
  (tryAlt (litPat "best") s).orElse fun _ =>
  (tryAlt (litPat "online") s).orElse fun _ =>
  (tryAlt (litPat "in india") s).orElse fun _ =>
  (tryAlt (litPat "202" ++ [PatChar.digit]) s).orElse fun _ =>
  tryAlt (litPat "axis max life insurance") s

/-- Scan of `re.sub(pattern, "", s)`: every alternative starts and ends in
a word character, so a match can only begin where the previous character
is not a word character; the empty replacement means scanning resumes at
the match's remainder.  One unit of fuel is spent per consumed character
(every alternative is nonempty), so fuel `s.length` always suffices. -/
def subMarketingGo : Nat → Bool → List Char → List Char
  | _, _, [] => []
  | 0, _, s => s
  | fuel + 1, prevWord, c :: rest =>
    if prevWord then c :: subMarketingGo fuel (isWordChar c) rest
    else
      match tryAlts (c :: rest) with
      | some r => subMarketingGo fuel true r
      | none => c :: subMarketingGo fuel (isWordChar c) rest

/-- `re.sub(r"\b(buy|best|online|in india|202\d|axis max life insurance)\b",
"", s, flags=re.IGNORECASE)`. -/
def subMarketing (s : String) : String :=
  String.mk (subMarketingGo s.data.length false s.data)

/-! ### `clean_plan_name_from_url` -/

/-- `re.sub(r"-plan$", "", slug, flags=re.IGNORECASE)`. -/
def stripPlanTail (s : String) : String :=
  if endsWithL ("-plan".data) (lowerL s.data) then
    String.mk (s.data.take (s.data.length - 5))
  else s

/-- `url.rstrip("/").split("/")[-1]`. -/
def urlSlug (url : String) : String :=
  String.mk (lastD (splitOnChar '/' (pyRstrip url '/').data) [])

/-- `TermPlanScraper.clean_plan_name_from_url`, line by line. -/
def clean_plan_name_from_url (url : String) : String :=
  let plan_slug := stripPlanTail (urlSlug url)
  let plan_name := pyTitle (String.mk (replaceSub ['-'] [' '] plan_slug.data))
  let plan_name := subMarketing plan_name
  let plan_name := pyStrip (collapseWs plan_name)
  "Axis Max Life " ++ plan_name ++ " Plan"

/-! ### Records (Python dicts with string keys)

A record value is a string, a boolean, the rider list written by
`extract_add_on_riders`, or the quote-details mapping written by
`extract_final_quote_details`. -/

/-- One entry of the `add_on_riders` list (`extract_add_on_riders`); each
field is `None` when its sub-selector found nothing. -/
structure RiderInfo where
  name : Option String
  coverage : Option String
  premium : Option String
  deriving DecidableEq

/-- A Python value stored in a plan record. -/
inductive Value where
  | str (s : String)
  | bool (b : Bool)
  | riders (rs : List RiderInfo)
  | qdict (q : List (String × String))
  deriving DecidableEq

/-- A Python dict with string keys, in insertion order. -/
abbrev Record := List (String × Value)

/-- Dict lookup `r[k]` / `r.get(k)`. -/
def rget : Record → String → Option Value
  | [], _ => none
  | (k', v) :: r, k => if k' = k then some v else rget r k

/-- Dict write `r[k] = v`: updates an existing key in place, else appends. -/
def rinsert : Record → String → Value → Record
  | [], k, v => [(k, v)]
  | (k', v') :: r, k, v =>
    if k' = k then (k, v) :: r else (k', v') :: rinsert r k v

/-- Python `k in r`. -/
def rhas (r : Record) (k : String) : Bool :=
  (rget r k).isSome

/-- The fixed schema of `parse_maxlife_plan` (`required_keys`). -/
def requiredKeys : List String :=
  ["source_url", "source_scrape_date", "insurer", "plan_name", "plan_type",
   "monthly_premium", "medical_required", "smoker_premium_diff",
   "add_on_riders", "quote_details"]

/-- The `for key in required_keys` loop: missing keys get the `"N/A"`
sentinel, present keys are untouched. -/
def fillRequired : List String → Record → Record
  | [], r => r
  | k :: ks, r =>
    fillRequired ks (if rhas r k then r else rinsert r k (Value.str "N/A"))

/-- `f"Axis Max Life {plan_shortname} Plan"` where `plan_shortname` is
`url_parts[-1].replace("-plan", "").replace("-", " ").title()`. -/
def shortnamePlanName (parts : List (List Char)) : String :=
  "Axis Max Life " ++
    pyTitle (String.mk
      (replaceSub ['-'] [' '] (replaceSub ("-plan".data) [] (lastD parts [])))) ++
    " Plan"

/-- The `if "source_url" in plan_data:` block of `parse_maxlife_plan`.
`none` models a raised exception: `.split` on a non-string `source_url`, or
`in` applied to a non-string `plan_name`. -/
def parseStep1 (plan_data : Record) : Option Record :=
  match rget plan_data "source_url" with
  | none => some plan_data
  | some (Value.str s) =>
    let url_parts := splitOnChar '/' s.data
    if url_parts.length > 0 then
      match rget plan_data "plan_name" with
      | none =>
        some (rinsert plan_data "plan_name"
          (Value.str (shortnamePlanName url_parts)))
      | some (Value.str pn) =>
        if strContains pn "Axis" then some plan_data
        else
          some (rinsert plan_data "plan_name"
            (Value.str (shortnamePlanName url_parts)))
      | some _ => none
    else some plan_data
  | some _ => none

/-- `TermPlanScraper.parse_maxlife_plan` as a pure map on the value of its
argument (the code first copies the input dict); `none` models a raised
exception. -/
def parse_maxlife_plan (raw_data : Record) : Option Record :=
  (parseStep1 raw_data).map (fillRequired requiredKeys)

/-! ### A heap model for the frame property of `parse_maxlife_plan`

Python dicts are heap objects passed by reference; the function's first
statement is `plan_data = raw_data.copy()`, and every later write targets
`plan_data`.  We model the heap as an address map to record values, the
copy as an allocation at a fresh address, and each `plan_data[...] = ...`
as a store at that address. -/

/-- A heap of dict objects, addressed by naturals. -/
abbrev Heap := List (Nat × Record)

/-- Heap load (unallocated addresses read as the empty dict). -/
def hget : Heap → Nat → Record
  | [], _ => []
  | (a', r) :: h, a => if a' = a then r else hget h a

/-- Heap store. -/
def hset : Heap → Nat → Record → Heap
  | [], a, r => [(a, r)]
  | (a', r') :: h, a, r =>
    if a' = a then (a, r) :: h else (a', r') :: hset h a r

/-- Allocated addresses of a heap. -/
def hdom (h : Heap) : List Nat :=
  h.map Prod.fst

/-- A fresh address: one past the largest allocated address. -/
def freshAddr (h : Heap) : Nat :=
  (hdom h).foldr max 0 + 1

/-- `parse_maxlife_plan` over the heap: `raw_data` is the address of the
argument dict; the result is the final heap and the address of the returned
dict (`none` when the body raises).  All stores hit the fresh copy. -/
def parse_maxlife_plan_heap (h0 : Heap) (raw_data : Nat) : Heap × Option Nat :=
  let pd := freshAddr h0
  let h1 := hset h0 pd (hget h0 raw_data)
  match rget (hget h1 pd) "source_url" with
  | none =>
    (hset h1 pd (fillRequired requiredKeys (hget h1 pd)), some pd)
  | some (Value.str s) =>
    let url_parts := splitOnChar '/' s.data
    if url_parts.length > 0 then
      match rget (hget h1 pd) "plan_name" with
      | none =>
        let h2 := hset h1 pd (rinsert (hget h1 pd) "plan_name"
          (Value.str (shortnamePlanName url_parts)))
        (hset h2 pd (fillRequired requiredKeys (hget h2 pd)), some pd)
      | some (Value.str pn) =>
        if strContains pn "Axis" then
          (hset h1 pd (fillRequired requiredKeys (hget h1 pd)), some pd)
        else
          let h2 := hset h1 pd (rinsert (hget h1 pd) "plan_name"
            (Value.str (shortnamePlanName url_parts)))
          (hset h2 pd (fillRequired requiredKeys (hget h2 pd)), some pd)
      | some _ => (h1, none)
    else
      (hset h1 pd (fillRequired requiredKeys (hget h1 pd)), some pd)
  | some _ => (h1, none)

/-! ### The navigation retry loop

`for attempt in range(RETRY_ATTEMPTS): try: goto; wait; break / except:
if attempt < RETRY_ATTEMPTS - 1: sleep(RETRY_DELAY) else: give up`
(lines 52-63 and 114-125).  `ok i` tells whether attempt `i` succeeds.
The result records success, the number of invocations, and the list of
sleep durations between consecutive attempts. -/

def RETRY_ATTEMPTS : Nat := 3

def RETRY_DELAY : Nat := 5

/-- The loop body from attempt number `attempt` with `remaining` iterations
of `range` left. -/
def retryGo (ok : Nat → Bool) (attempt remaining : Nat) :
    Bool × Nat × List Nat :=
  match remaining with
  | 0 => (false, 0, [])
  | r + 1 =>
    if ok attempt then (true, 1, [])
    else if r = 0 then (false, 1, [])
    else
      let rec' := retryGo ok (attempt + 1) r
      (rec'.1, rec'.2.1 + 1, RETRY_DELAY :: rec'.2.2)

/-- The whole retry loop over `range(RETRY_ATTEMPTS)`. -/
def retryNav (ok : Nat → Bool) : Bool × Nat × List Nat :=
  retryGo ok 0 RETRY_ATTEMPTS

/-! ### The selector-fallback loops

`for selector in selectors: try: el = wait_for_selector(selector,
state='visible'); if el: ...; break / except: continue` (premium selectors,
proceed-button selectors, modal-button selectors).  `find sel` is the
capability provider: `some e` when the selector structurally matches an
actionable (visible) element within the timeout, `none` otherwise.  The
result pairs the resolved element with the list of selectors attempted. -/

def resolveTrace {α : Type} (find : String → Option α) :
    List String → Option α × List String
  | [] => (none, [])
  | sel :: rest =>
    match find sel with
    | some e => (some e, [sel])
    | none =>
      let r := resolveTrace find rest
      (r.1, sel :: r.2)

/-! ### The form variants

`handle_form1/2/3` each probe a fixed sequence of selectors and return
`False` at the first that is missing; each wraps its body in
`try/except` returning `False`, so a handler never raises.  The
environment says which selector probes succeed on the page, and whether
the modal stage (`handle_modal_form`, called by every variant after
submission) succeeds. -/

structure FormEnv where
  /-- `.form-container, form.w-full, section.form` (form 2). -/
  form_container : Bool
  /-- `#fullName` (forms 2 and 3). -/
  fullName : Bool
  /-- `input[name="dob"]` (forms 2 and 3). -/
  dob : Bool
  /-- `label[for="64762"]` NRI answer (forms 2 and 3). -/
  nri_64762 : Bool
  /-- `input[name="phoneNumber"]` (forms 2 and 3). -/
  phoneNumber : Bool
  /-- `label[for="64764"]` income answer (forms 2 and 3). -/
  income_64764 : Bool
  /-- `button.gtm-leadform` (forms 2 and 3). -/
  gtm_leadform : Bool
  /-- `label[for="233"]` gender answer (form 1). -/
  label_233 : Bool
  /-- `label[for="239"]` tobacco answer (form 1). -/
  label_239 : Bool
  /-- `label[for="16301"]` sum-assured answer (form 1). -/
  label_16301 : Bool
  /-- `button.gtm-leadform2` (forms 1 and 3). -/
  gtm_leadform2 : Bool
  /-- `label[for="42508"]` NRI answer (form 3 first choice). -/
  nri_42508 : Bool
  /-- `input#3` phone fallback (form 3). -/
  input3 : Bool
  /-- `label[for="16298"]` income answer (form 3 first choice). -/
  income_16298 : Bool
  /-- `handle_modal_form` succeeds after submission. -/
  modal_ok : Bool
  deriving DecidableEq

/-- `TermPlanScraper.handle_form1`: gender, tobacco, sum assured, submit,
then the modal; `False` at the first missing piece. -/
def handle_form1 (env : FormEnv) : Bool :=
  env.label_233 && env.label_239 && env.label_16301 &&
    env.gtm_leadform2 && env.modal_ok

/-- `TermPlanScraper.handle_form2`: form container, name, DOB, NRI, phone,
income, submit, then the modal; `False` at the first missing piece. -/
def handle_form2 (env : FormEnv) : Bool :=
  env.form_container && env.fullName && env.dob && env.nri_64762 &&
    env.phoneNumber && env.income_64764 && env.gtm_leadform && env.modal_ok

/-- `TermPlanScraper.handle_form3`: name, DOB, NRI (two selector choices),
phone (two choices), income (two choices), submit (two choices), then the
modal. -/
def handle_form3 (env : FormEnv) : Bool :=
  env.fullName && env.dob && (env.nri_42508 || env.nri_64762) &&
    (env.phoneNumber || env.input3) && (env.income_16298 || env.income_64764) &&
    (env.gtm_leadform || env.gtm_leadform2) && env.modal_ok

/-- The three page variants: A is `handle_form1`, B is `handle_form2`,
C is `handle_form3`. -/
inductive FormVariant where
  | A
  | B
  | C
  deriving DecidableEq

/-- `TermPlanScraper.handle_any_form`: try form 2, then form 1, then
form 3, stopping at the first success.  The second component is the list
of variants attempted, in order. -/
def handle_any_form (env : FormEnv) : Bool × List FormVariant :=
  if handle_form2 env then (true, [FormVariant.B])
  else if handle_form1 env then (true, [FormVariant.B, FormVariant.A])
  else (handle_form3 env, [FormVariant.B, FormVariant.A, FormVariant.C])

/-! ### `scrape_plan`

The capability provider's behaviour for one URL: whether `new_page`
raises, which navigation attempts succeed, which of the three
`plan_data[...] = ...` writes the form-handling stage performs (the only
writes to `plan_data` anywhere in the handlers are `monthly_premium` at
line 481, `add_on_riders` at line 837 and `quote_details` at line 939,
in that order), and the result of `all_inner_texts` (`none` = raises). -/

structure ScrapeEnv where
  /-- Value of `str(datetime.date.today())` at scrape time. -/
  date : String
  /-- `self.context.new_page()` succeeds (otherwise it raises). -/
  newPageOk : Bool
  /-- `goto` plus `wait_for_load_state` succeeds on attempt `i`. -/
  navOk : Nat → Bool
  /-- The `plan_data['monthly_premium'] = premium_text` write, if reached. -/
  premiumWrite : Option String
  /-- The `plan_data['add_on_riders'] = riders` write, if reached. -/
  ridersWrite : Option (List RiderInfo)
  /-- The `plan_data['quote_details'] = quote_details` write, if reached. -/
  quoteWrite : Option (List (String × String))
  /-- `locator("li, p, td, span").all_inner_texts()`; `none` = raises. -/
  texts : Option (List String)

/-- The `plan_data` literal built at the top of `scrape_plan`. -/
def identityRecord (env : ScrapeEnv) (url : String) : Record :=
  [("source_url", Value.str url),
   ("source_scrape_date", Value.str env.date),
   ("insurer", Value.str "Axis Max Life Insurance"),
   ("plan_name", Value.str (clean_plan_name_from_url url)),
   ("plan_type", Value.str "Term Insurance")]

/-- The net effect of `handle_any_form` on `plan_data`: the three possible
writes, applied in program order. -/
def applyFormWrites (env : ScrapeEnv) (r : Record) : Record :=
  let r := match env.premiumWrite with
    | some p => rinsert r "monthly_premium" (Value.str p)
    | none => r
  let r := match env.ridersWrite with
    | some rs => rinsert r "add_on_riders" (Value.riders rs)
    | none => r
  match env.quoteWrite with
  | some q => rinsert r "quote_details" (Value.qdict q)
  | none => r

/-- Python `" ".join(ts)` as a char list. -/
def joinSpace : List String → List Char
  | [] => []
  | [s] => s.data
  | s :: t :: rest => s.data ++ ' ' :: joinSpace (t :: rest)

/-- The `plan_data.update({...})` call: `monthly_premium` keeps its value
or gets `"N/A"`, and the two booleans come from substring tests on the
lowercased joined page text. -/
def applyTextUpdate (ts : List String) (r : Record) : Record :=
  let joined_lower := String.mk (lowerL (joinSpace ts))
  let r := rinsert r "monthly_premium"
    ((rget r "monthly_premium").getD (Value.str "N/A"))
  let r := rinsert r "medical_required"
    (Value.bool (strContains joined_lower "medical"))
  rinsert r "smoker_premium_diff"
    (Value.bool (strContains joined_lower "smoker"))

/-- `TermPlanScraper.scrape_plan`, path by path: a raising `new_page` is
caught by the outer `except` which returns `plan_data`; exhausted
navigation retries return `plan_data` directly; a raising
`all_inner_texts` (or a raising `parse_maxlife_plan`) is caught by the
outer `except` which returns the current `plan_data`; otherwise the
result is `parse_maxlife_plan(plan_data)`. -/
def scrape_plan (env : ScrapeEnv) (url : String) : Record :=
  let plan_data := identityRecord env url
  if !env.newPageOk then plan_data
  else if !(retryNav env.navOk).1 then plan_data
  else
    let plan_data := applyFormWrites env plan_data
    match env.texts with
    | none => plan_data
    | some ts =>
      let plan_data := applyTextUpdate ts plan_data
      match parse_maxlife_plan plan_data with
      | some r => r
      | none => plan_data

/-! ### The worker pool (`main` + `asyncio.gather` + the semaphore)

`main` builds one `scrape_plan` task per URL in input order and awaits
`asyncio.gather(*tasks)`, which stores each task's result at the task's
index regardless of completion order.  Each task holds one of the
semaphore's slots for its whole body.  This is modelled as a labelled
transition system: a task is waiting, active (with remaining work), or
done; `acquire` needs a free slot, `finish` releases it and writes the
task's result into its own slot of the output list.  A trace is any
interleaving the scheduler could produce. -/

/-- Status of one `scrape_plan` task. -/
inductive TaskSt where
  | waiting
  | active (remaining : Nat)
  | done
  deriving DecidableEq

/-- Whether a task currently holds a semaphore slot. -/
def isActive : TaskSt → Bool
  | TaskSt.active _ => true
  | _ => false

/-- Whether a task has completed. -/
def isDone : TaskSt → Bool
  | TaskSt.done => true
  | _ => false

/-- Number of tasks holding a slot. -/
def countActive (ts : List TaskSt) : Nat :=
  ts.countP isActive

/-- Pool configuration: the input URLs (in order), each task's work
duration, the semaphore capacity, and the per-URL result function. -/
structure PoolEnv where
  urls : List String
  durs : List Nat
  cap : Nat
  resultOf : String → Record

/-- Pool state: per-task status and the `gather` result list, both indexed
by input position. -/
structure PoolState where
  tasks : List TaskSt
  slots : List (Option Record)
  deriving DecidableEq

/-- One scheduler step for task `i`. -/
inductive PoolAction where
  | acquire (i : Nat)
  | work (i : Nat)
  | finish (i : Nat)

/-- Apply one action if it is enabled (`none` otherwise): `acquire` admits
a waiting task when a slot is free, `work` burns one unit of an active
task's duration, `finish` completes a task whose work is done and stores
its result at its own index. -/
def applyAction (env : PoolEnv) (s : PoolState) : PoolAction → Option PoolState
  | PoolAction.acquire i =>
    match s.tasks.get? i with
    | some TaskSt.waiting =>
      if countActive s.tasks < env.cap then
        some { s with tasks := s.tasks.set i (TaskSt.active (env.durs.getD i 0)) }
      else none
    | _ => none
  | PoolAction.work i =>
    match s.tasks.get? i with
    | some (TaskSt.active (n + 1)) =>
      some { s with tasks := s.tasks.set i (TaskSt.active n) }
    | _ => none
  | PoolAction.finish i =>
    match s.tasks.get? i with
    | some (TaskSt.active 0) =>
      some { tasks := s.tasks.set i TaskSt.done,
             slots := s.slots.set i (some (env.resultOf (env.urls.getD i ""))) }
    | _ => none

/-- Run a scheduler trace. -/
def runActions (env : PoolEnv) (s : PoolState) : List PoolAction → Option PoolState
  | [] => some s
  | a :: rest =>
    match applyAction env s a with
    | some s' => runActions env s' rest
    | none => none

/-- The initial pool state: every task waiting, every slot empty. -/
def initPool (env : PoolEnv) : PoolState :=
  { tasks := env.urls.map fun _ => TaskSt.waiting,
    slots := env.urls.map fun _ => none }

/-- All tasks completed (the `gather` call has returned). -/
def allDone (s : PoolState) : Bool :=
  s.tasks.all isDone

/-! ### Concrete environments used by the closed checks -/

/-- A provider whose every navigation attempt times out. -/
def envNavFailA : ScrapeEnv :=
  { date := "2026-10-12", newPageOk := true, navOk := fun _ => false,
    premiumWrite := none, ridersWrite := none, quoteWrite := none,
    texts := none }

/-- A second always-failing-navigation provider (different scrape date). -/
def envNavFailB : ScrapeEnv :=
  { date := "2026-10-11", newPageOk := true, navOk := fun _ => false,
    premiumWrite := none, ridersWrite := none, quoteWrite := none,
    texts := none }

/-- A fully cooperative provider: navigation succeeds first try and the
page text is readable. -/
def envHappy : ScrapeEnv :=
  { date := "2026-10-12", newPageOk := true, navOk := fun _ => true,
    premiumWrite := some "₹683/month", ridersWrite := none,
    quoteWrite := none, texts := some ["x"] }

/-- A one-dict heap for the frame check of `parse_maxlife_plan`. -/
def heapW : Heap :=
  [(0, [("source_url", Value.str "https://a/b-plan")])]

/-- Pool state after the two-URL run where task 1 finishes before task 0. -/
def sPool2 : PoolState :=
  { tasks := [TaskSt.done, TaskSt.done],
    slots := [some (scrape_plan envNavFailA "a"),
              some (scrape_plan envNavFailA "b")] }

/-- Pool state after admitting tasks 0 and 1 of five under capacity 2. -/
def sPool9 : PoolState :=
  { tasks := [TaskSt.active 1, TaskSt.active 1, TaskSt.waiting,
              TaskSt.waiting, TaskSt.waiting],
    slots := [none, none, none, none, none] }

/-! ## Lemmas about the record operations -/

theorem rget_rinsert_self (r : Record) (k : String) (v : Value) :
    rget (rinsert r k v) k = some v := by
  induction r with
  | nil => simp [rinsert, rget]
  | cons p r ih =>
    obtain ⟨k', v'⟩ := p
    by_cases h : k' = k
    · subst h; simp [rinsert, rget]
    · simp [rinsert, rget, h, ih]

theorem rget_rinsert_ne (r : Record) (k k' : String) (v : Value)
    (h : k ≠ k') : rget (rinsert r k v) k' = rget r k' := by
  induction r with
  | nil => simp [rinsert, rget, h]
  | cons p r ih =>
    obtain ⟨k0, v0⟩ := p
    by_cases h0 : k0 = k
    · subst h0; simp [rinsert, rget, h]
    · simp [rinsert, rget, h0, ih]

theorem rhas_rinsert_self (r : Record) (k : String) (v : Value) :
    rhas (rinsert r k v) k = true := by
  simp [rhas, rget_rinsert_self]

theorem rhas_rinsert_ne (r : Record) (k k' : String) (v : Value)
    (h : k ≠ k') : rhas (rinsert r k v) k' = rhas r k' := by
  simp [rhas, rget_rinsert_ne _ _ _ _ h]

theorem rget_fillRequired_of_has : ∀ (ks : List String) (r : Record)
    (k : String), rhas r k = true →
    rget (fillRequired ks r) k = rget r k := by
  intro ks
  induction ks with
  | nil => intro r k _; simp [fillRequired]
  | cons k0 ks ih =>
    intro r k hk
    by_cases h0 : rhas r k0
    · simp [fillRequired, h0, ih r k hk]
    · simp only [fillRequired, h0, if_false, Bool.false_eq_true]
      by_cases hkk : k0 = k
      · subst hkk
        simp [rhas] at h0
        exact absurd hk (by simp [rhas, h0])
      · rw [ih _ k (by rw [rhas_rinsert_ne _ _ _ _ hkk]; exact hk)]
        exact rget_rinsert_ne _ _ _ _ hkk

theorem rhas_fillRequired_mono : ∀ (ks : List String) (r : Record)
    (k : String), rhas r k = true →
    rhas (fillRequired ks r) k = true := by
  intro ks r k h
  simp only [rhas, rget_fillRequired_of_has ks r k h]
  simpa [rhas] using h

theorem rhas_fillRequired_of_mem : ∀ (ks : List String) (r : Record)
    (k : String), k ∈ ks → rhas (fillRequired ks r) k = true := by
  intro ks
  induction ks with
  | nil => intro r k h; simp at h
  | cons k0 ks ih =>
    intro r k hk
    rcases List.mem_cons.mp hk with h | h
    · subst h
      by_cases h0 : rhas r k
      · simp only [fillRequired, h0, if_true]
        exact rhas_fillRequired_mono ks r k h0
      · simp only [fillRequired, h0, if_false, Bool.false_eq_true]
        exact rhas_fillRequired_mono ks _ k (rhas_rinsert_self r k _)
    · by_cases h0 : rhas r k0 <;>
        simp only [fillRequired, h0, if_true, if_false, Bool.false_eq_true] <;>
        exact ih _ k h

/-! ## Lemmas about the heap operations -/

theorem hget_hset_ne (h : Heap) (a' a : Nat) (r : Record)
    (hne : a' ≠ a) : hget (hset h a' r) a = hget h a := by
  induction h with
  | nil => simp [hset, hget, hne]
  | cons p h ih =>
    obtain ⟨a0, r0⟩ := p
    by_cases h0 : a0 = a'
    · subst h0; simp [hset, hget, hne]
    · simp [hset, hget, h0, ih]

theorem le_foldr_max_of_mem : ∀ (l : List Nat) (a : Nat), a ∈ l →
    a ≤ l.foldr max 0 := by
  intro l
  induction l with
  | nil => intro a h; simp at h
  | cons x xs ih =>
    intro a h
    rcases List.mem_cons.mp h with h | h
    · subst h
      simp only [List.foldr_cons]
      exact le_max_left _ _
    · have hle := ih a h
      simp only [List.foldr_cons]
      exact le_trans hle (le_max_right _ _)

theorem freshAddr_ne (h : Heap) (a : Nat) (ha : a ∈ hdom h) :
    freshAddr h ≠ a := by
  have := le_foldr_max_of_mem (hdom h) a ha
  unfold freshAddr
  omega

/-! ## C8: plan-name derivation from the URL slug -/

/-- C8: for every URL whose final path segment (after stripping trailing
slashes) is `smart-secure-plus-plan`, `clean_plan_name_from_url` returns
exactly `"Axis Max Life Smart Secure Plus Plan"`. -/
theorem clean_plan_name_smart_secure (url : String)
    (h : urlSlug url = "smart-secure-plus-plan") :
    clean_plan_name_from_url url = "Axis Max Life Smart Secure Plus Plan" := by
  unfold clean_plan_name_from_url
  rw [h]
  decide

theorem clean_plan_name_smart_secure_witness :
    urlSlug "https://www.axismaxlife.com/term-insurance-plans/smart-secure-plus-plan"
        = "smart-secure-plus-plan" ∧
      clean_plan_name_from_url
          "https://www.axismaxlife.com/term-insurance-plans/smart-secure-plus-plan"
        = "Axis Max Life Smart Secure Plus Plan" :=
  ⟨by decide, clean_plan_name_smart_secure _ (by decide)⟩

/-! ## C5: the navigation retry loop -/

/-- C5: under the 3-attempt policy, an operation failing twice then
succeeding makes the run succeed with exactly 3 invocations; an
always-failing operation is invoked exactly 3 times and the run reports
the final failure; between consecutive attempts the loop sleeps the
constant `RETRY_DELAY` (the policy's delay with backoff multiplier 1:
the navigation retry has no backoff growth). -/
theorem retry_three_attempts (ok bad : Nat → Bool)
    (h0 : ok 0 = false) (h1 : ok 1 = false) (h2 : ok 2 = true)
    (hbad : ∀ i, bad i = false) :
    retryNav ok = (true, 3, [RETRY_DELAY, RETRY_DELAY]) ∧
      retryNav bad = (false, 3, [RETRY_DELAY, RETRY_DELAY]) := by
  constructor
  · simp [retryNav, RETRY_ATTEMPTS, retryGo, h0, h1, h2]
  · simp [retryNav, RETRY_ATTEMPTS, retryGo, hbad 0, hbad 1, hbad 2]

theorem retry_three_attempts_witness :
    retryNav (fun i => i == 2) = (true, 3, [RETRY_DELAY, RETRY_DELAY]) ∧
      retryNav (fun _ => false) = (false, 3, [RETRY_DELAY, RETRY_DELAY]) :=
  retry_three_attempts (fun i => i == 2) (fun _ => false)
    rfl rfl rfl (fun _ => rfl)

/-! ## C6: the selector fallback loops -/

/-- C6: over a chain `[A, B, C]` where `A` does not resolve and `B`
resolves to an actionable element `e`, the fallback loop returns `e`
having attempted exactly `A` then `B` — candidate `C` is never tried. -/
theorem resolver_first_actionable {α : Type} (find : String → Option α)
    (A B C : String) (e : α)
    (hA : find A = none) (hB : find B = some e) :
    resolveTrace find [A, B, C] = (some e, [A, B]) := by
  simp [resolveTrace, hA, hB]

theorem resolver_first_actionable_witness :
    resolveTrace
        (fun s => if s = "button#viewPlans" then some 7 else none)
        [".premium", "button#viewPlans", "button[type=submit]"]
      = (some 7, [".premium", "button#viewPlans"]) :=
  resolver_first_actionable _ _ _ _ _ rfl rfl

/-! ## C3: variant priority order in `handle_any_form` -/

/-- C3: `handle_any_form` attempts Variant B (`handle_form2`) first and on
success returns without attempting A or C; when B fails it attempts
Variant A (`handle_form1`) next and stops there on success; only when both
fail does it attempt Variant C (`handle_form3`), whose outcome is then the
overall outcome. -/
theorem variant_priority_order (env : FormEnv) :
    (handle_form2 env = true →
      handle_any_form env = (true, [FormVariant.B])) ∧
    (handle_form2 env = false → handle_form1 env = true →
      handle_any_form env = (true, [FormVariant.B, FormVariant.A])) ∧
    (handle_form2 env = false → handle_form1 env = false →
      handle_any_form env
        = (handle_form3 env, [FormVariant.B, FormVariant.A, FormVariant.C])) := by
  refine ⟨fun h2 => ?_, fun h2 h1 => ?_, fun h2 h1 => ?_⟩ <;>
    simp [handle_any_form, h2]
  · simp [h1]
  · simp [h1]

theorem variant_priority_order_witness :
    handle_any_form
        { form_container := true, fullName := true, dob := true,
          nri_64762 := true, phoneNumber := true, income_64764 := true,
          gtm_leadform := true, label_233 := false, label_239 := false,
          label_16301 := false, gtm_leadform2 := false, nri_42508 := false,
          input3 := false, income_16298 := false, modal_ok := true }
      = (true, [FormVariant.B]) :=
  (variant_priority_order _).1 (by decide)

/-! ## C10: `parse_maxlife_plan` leaves its argument unchanged -/

/-- C10: for every heap and every allocated argument dict, running
`parse_maxlife_plan` leaves the argument object exactly as it was (all
writes go to the fresh copy made by `raw_data.copy()`), and the returned
dict (when the body does not raise) is a new object, not the argument. -/
theorem parse_maxlife_plan_frame (h0 : Heap) (a : Nat) (ha : a ∈ hdom h0) :
    hget (parse_maxlife_plan_heap h0 a).1 a = hget h0 a ∧
      ∀ pd, (parse_maxlife_plan_heap h0 a).2 = some pd → pd ≠ a := by
  have hne : freshAddr h0 ≠ a := freshAddr_ne h0 a ha
  constructor
  · simp only [parse_maxlife_plan_heap]
    repeat' split
    all_goals simp [hget_hset_ne, hne]
  · intro pd hpd
    simp only [parse_maxlife_plan_heap] at hpd
    repeat' split at hpd
    all_goals
      first
        | (simp at hpd
           done)
        | (simp at hpd
           exact hpd ▸ hne)

theorem parse_maxlife_plan_frame_witness :
    (0 ∈ hdom heapW) ∧ hget (parse_maxlife_plan_heap heapW 0).1 0 = hget heapW 0 :=
  ⟨by decide, (parse_maxlife_plan_frame heapW 0 (by decide)).1⟩

/-! ## Lemmas for the `scrape_plan` paths -/

theorem rget_rinsert_ne' (k k' : String) (h : k ≠ k') (r : Record) (v : Value) :
    rget (rinsert r k v) k' = rget r k' :=
  rget_rinsert_ne r k k' v h

theorem rget_applyFormWrites_ne (env : ScrapeEnv) (r : Record) (k : String)
    (h1 : k ≠ "monthly_premium") (h2 : k ≠ "add_on_riders")
    (h3 : k ≠ "quote_details") :
    rget (applyFormWrites env r) k = rget r k := by
  unfold applyFormWrites
  cases env.premiumWrite <;> cases env.ridersWrite <;> cases env.quoteWrite <;>
    simp [rget_rinsert_ne' _ _ (Ne.symm h1), rget_rinsert_ne' _ _ (Ne.symm h2),
      rget_rinsert_ne' _ _ (Ne.symm h3)]

theorem rget_applyTextUpdate_ne (ts : List String) (r : Record) (k : String)
    (h1 : k ≠ "monthly_premium") (h2 : k ≠ "medical_required")
    (h3 : k ≠ "smoker_premium_diff") :
    rget (applyTextUpdate ts r) k = rget r k := by
  unfold applyTextUpdate
  simp [rget_rinsert_ne' _ _ (Ne.symm h1), rget_rinsert_ne' _ _ (Ne.symm h2),
    rget_rinsert_ne' _ _ (Ne.symm h3)]

theorem strContains_axis_name (mid : String) :
    strContains ("Axis Max Life " ++ mid ++ " Plan") "Axis" = true := by
  unfold strContains
  have hdata : ("Axis Max Life " ++ mid ++ " Plan").data
      = 'A' :: 'x' :: 'i' :: 's' ::
          ((" Max Life ".data ++ mid.data) ++ " Plan".data) := by
    simp [String.data_append]
  rw [hdata]
  simp [containsSub, startsWithL]

theorem strContains_clean_name (url : String) :
    strContains (clean_plan_name_from_url url) "Axis" = true := by
  unfold clean_plan_name_from_url
  exact strContains_axis_name _

theorem parseStep1_of_axis (r : Record) (s pn : String)
    (hu : rget r "source_url" = some (Value.str s))
    (hn : rget r "plan_name" = some (Value.str pn))
    (hax : strContains pn "Axis" = true) :
    parseStep1 r = some r := by
  unfold parseStep1
  simp only [hu]
  split
  · simp only [hn, hax]
    simp
  · rfl

/-- The record built by the success path, before normalization. -/
def successRaw (env : ScrapeEnv) (url : String) (ts : List String) : Record :=
  applyTextUpdate ts (applyFormWrites env (identityRecord env url))

theorem rget_successRaw_identity (env : ScrapeEnv) (url : String)
    (ts : List String) (k : String) (v : Value)
    (h1 : k ≠ "monthly_premium") (h2 : k ≠ "add_on_riders")
    (h3 : k ≠ "quote_details") (h4 : k ≠ "medical_required")
    (h5 : k ≠ "smoker_premium_diff")
    (hid : rget (identityRecord env url) k = some v) :
    rget (successRaw env url ts) k = some v := by
  unfold successRaw
  rw [rget_applyTextUpdate_ne _ _ _ h1 h4 h5,
    rget_applyFormWrites_ne _ _ _ h1 h2 h3, hid]

theorem scrape_plan_success_eq (env : ScrapeEnv) (url : String)
    (ts : List String) (hpage : env.newPageOk = true)
    (hnav : (retryNav env.navOk).1 = true) (htexts : env.texts = some ts) :
    scrape_plan env url = fillRequired requiredKeys (successRaw env url ts) := by
  have hsu : rget (successRaw env url ts) "source_url" = some (Value.str url) :=
    rget_successRaw_identity env url ts _ _ (by decide) (by decide) (by decide)
      (by decide) (by decide) rfl
  have hpn : rget (successRaw env url ts) "plan_name"
      = some (Value.str (clean_plan_name_from_url url)) :=
    rget_successRaw_identity env url ts _ _ (by decide) (by decide) (by decide)
      (by decide) (by decide) rfl
  have hstep : parseStep1 (successRaw env url ts) = some (successRaw env url ts) :=
    parseStep1_of_axis _ url _ hsu hpn (strContains_clean_name url)
  have hparse : parse_maxlife_plan (successRaw env url ts)
      = some (fillRequired requiredKeys (successRaw env url ts)) := by
    simp [parse_maxlife_plan, hstep]
  simp only [successRaw] at hparse
  simp only [scrape_plan, hpage, hnav, htexts, Bool.not_true,
    Bool.false_eq_true, if_false, successRaw]
  rw [hparse]

theorem rget_success_keep (env : ScrapeEnv) (url : String) (ts : List String)
    (k : String) (v : Value)
    (h1 : k ≠ "monthly_premium") (h2 : k ≠ "add_on_riders")
    (h3 : k ≠ "quote_details") (h4 : k ≠ "medical_required")
    (h5 : k ≠ "smoker_premium_diff")
    (hid : rget (identityRecord env url) k = some v) :
    rget (fillRequired requiredKeys (successRaw env url ts)) k = some v := by
  have hpd := rget_successRaw_identity env url ts k v h1 h2 h3 h4 h5 hid
  rw [rget_fillRequired_of_has _ _ _ (by simp [rhas, hpd])]
  exact hpd

/-! ## C7: `scrape_plan` always returns a record -/

/-- C7: for every behaviour of the capability provider (page creation may
raise, any subset of navigation attempts may fail, the form stage may
perform any of its writes, text extraction may raise) and every URL,
`scrape_plan` returns a record whose identity fields are populated — it
never escapes with an exception. -/
theorem scrape_plan_total_identity (env : ScrapeEnv) (url : String) :
    rget (scrape_plan env url) "source_url" = some (Value.str url) ∧
    rget (scrape_plan env url) "source_scrape_date" = some (Value.str env.date) ∧
    rget (scrape_plan env url) "insurer"
      = some (Value.str "Axis Max Life Insurance") ∧
    rget (scrape_plan env url) "plan_name"
      = some (Value.str (clean_plan_name_from_url url)) ∧
    rget (scrape_plan env url) "plan_type" = some (Value.str "Term Insurance") := by
  by_cases hpage : env.newPageOk
  case neg =>
    have heq : scrape_plan env url = identityRecord env url := by
      simp [scrape_plan, hpage]
    rw [heq]
    exact ⟨rfl, rfl, rfl, rfl, rfl⟩
  case pos =>
  by_cases hnav : (retryNav env.navOk).1
  case neg =>
    have heq : scrape_plan env url = identityRecord env url := by
      simp [scrape_plan, hpage, hnav]
    rw [heq]
    exact ⟨rfl, rfl, rfl, rfl, rfl⟩
  case pos =>
  cases htexts : env.texts with
  | none =>
    have heq : scrape_plan env url = applyFormWrites env (identityRecord env url) := by
      simp [scrape_plan, hpage, hnav, htexts]
    rw [heq]
    refine ⟨?_, ?_, ?_, ?_, ?_⟩ <;>
      (rw [rget_applyFormWrites_ne _ _ _ (by decide) (by decide) (by decide)]; rfl)
  | some ts =>
    rw [scrape_plan_success_eq env url ts hpage hnav htexts]
    refine ⟨?_, ?_, ?_, ?_, ?_⟩ <;>
      exact rget_success_keep env url ts _ _ (by decide) (by decide) (by decide)
        (by decide) (by decide) rfl

/-! ## C1: schema completeness of the output records -/

/-- C1 counterexample: with a provider whose every navigation attempt
fails, the record `scrape_plan` returns is missing the `monthly_premium`
key entirely — the navigation-failure path returns `plan_data` without
running the normalizer, so the record is not schema-complete. -/
theorem scrape_plan_missing_key_on_nav_failure :
    rhas (scrape_plan envNavFailA
        "https://www.axismaxlife.com/term-insurance-plans/smart-secure-plus-plan")
      "monthly_premium" = false := by
  decide

/-- C1 (amended): every record produced on the successful-extraction path
(page opened, navigation succeeded within the retries, page text read) has
every fixed-schema field present — extracted or set to the sentinel.  On
the navigation-failure and exception paths the record keeps only the
fields populated so far and may lack the remaining schema keys. -/
theorem scrape_plan_schema_complete (env : ScrapeEnv) (url : String)
    (ts : List String) (hpage : env.newPageOk = true)
    (hnav : (retryNav env.navOk).1 = true) (htexts : env.texts = some ts) :
    ∀ k, k ∈ requiredKeys → rhas (scrape_plan env url) k = true := by
  intro k hk
  rw [scrape_plan_success_eq env url ts hpage hnav htexts]
  exact rhas_fillRequired_of_mem _ _ _ hk

theorem scrape_plan_schema_complete_witness :
    rhas (scrape_plan envHappy
        "https://www.axismaxlife.com/term-insurance-plans/smart-secure-plus-plan")
      "quote_details" = true :=
  scrape_plan_schema_complete envHappy
    "https://www.axismaxlife.com/term-insurance-plans/smart-secure-plus-plan"
    ["x"] rfl rfl rfl "quote_details" (by decide)

/-! ## C4: the navigation-failure record -/

/-- C4 counterexample: on the navigation-failure path the non-identity
schema fields are not present with a sentinel value — they are absent
(`quote_details` has no key at all). -/
theorem scrape_plan_nav_failure_no_sentinel :
    rhas (scrape_plan envNavFailB
        "https://www.axismaxlife.com/term-insurance-plans/smart-term-plan-plus")
      "quote_details" = false := by
  decide

/-- C4 (amended): when the page opens but every one of the three
navigation attempts fails, `scrape_plan` returns exactly the initial
`plan_data`: the five identity keys `source_url`, `source_scrape_date`,
`insurer`, `plan_name`, `plan_type` (note `plan_name` is populated too),
and no other key — the remaining schema fields are absent, not
sentinel-filled. -/
theorem scrape_plan_nav_failure_identity (env : ScrapeEnv) (url : String)
    (hpage : env.newPageOk = true)
    (hnav : ∀ i, i < RETRY_ATTEMPTS → env.navOk i = false) :
    scrape_plan env url = identityRecord env url ∧
      (scrape_plan env url).map Prod.fst
        = ["source_url", "source_scrape_date", "insurer", "plan_name",
           "plan_type"] := by
  have e0 := hnav 0 (by decide)
  have e1 := hnav 1 (by decide)
  have e2 := hnav 2 (by decide)
  have hr : (retryNav env.navOk).1 = false := by
    simp [retryNav, RETRY_ATTEMPTS, retryGo, e0, e1, e2]
  have heq : scrape_plan env url = identityRecord env url := by
    simp [scrape_plan, hpage, hr]
  refine ⟨heq, ?_⟩
  rw [heq]
  rfl

theorem scrape_plan_nav_failure_identity_witness :
    scrape_plan envNavFailB "https://a/smart-term-plan"
      = identityRecord envNavFailB "https://a/smart-term-plan" :=
  (scrape_plan_nav_failure_identity envNavFailB "https://a/smart-term-plan"
    rfl (fun _ _ => rfl)).1

/-! ## Lemmas for the worker pool -/

theorem lt_length_of_get?_some {α : Type} {l : List α} {n : Nat} {a : α}
    (h : l.get? n = some a) : n < l.length := by
  by_contra hn
  rw [not_lt] at hn
  rw [List.get?_eq_none.mpr hn] at h
  cases h

theorem countP_set_exchange {α : Type} (p : α → Bool) :
    ∀ (l : List α) (i : Nat) (a w : α), l.get? i = some w →
      (l.set i a).countP p + (if p w then 1 else 0)
        = l.countP p + (if p a then 1 else 0) := by
  intro l
  induction l with
  | nil => intro i a w h; simp at h
  | cons x xs ih =>
    intro i a w h
    cases i with
    | zero =>
      simp only [List.get?] at h
      injection h with h
      subst h
      simp only [List.set, List.countP_cons]
      omega
    | succ n =>
      simp only [List.get?] at h
      simp only [List.set, List.countP_cons]
      have := ih n a w h
      omega

theorem applyAction_countActive_le (env : PoolEnv) (s s' : PoolState)
    (a : PoolAction) (hle : countActive s.tasks ≤ env.cap)
    (h : applyAction env s a = some s') :
    countActive s'.tasks ≤ env.cap := by
  cases a with
  | acquire i =>
    simp only [applyAction] at h
    cases hg : s.tasks.get? i with
    | none => rw [hg] at h; exact absurd h (by simp)
    | some t =>
      rw [hg] at h
      cases t with
      | waiting =>
        dsimp only at h
        split at h
        next hlt =>
          injection h with h
          subst h
          have hex := countP_set_exchange isActive s.tasks i
            (TaskSt.active (env.durs.getD i 0)) TaskSt.waiting hg
          simp [isActive] at hex
          simp only [countActive, List.getD_eq_getElem?_getD] at *
          omega
        next => exact absurd h (by simp)
      | active n => exact absurd h (by simp)
      | done => exact absurd h (by simp)
  | work i =>
    simp only [applyAction] at h
    cases hg : s.tasks.get? i with
    | none => rw [hg] at h; exact absurd h (by simp)
    | some t =>
      rw [hg] at h
      cases t with
      | waiting => exact absurd h (by simp)
      | active n =>
        cases n with
        | zero => exact absurd h (by simp)
        | succ m =>
          dsimp only at h
          injection h with h
          subst h
          have hex := countP_set_exchange isActive s.tasks i
            (TaskSt.active m) (TaskSt.active (m + 1)) hg
          simp [isActive] at hex
          simp only [countActive] at *
          omega
      | done => exact absurd h (by simp)
  | finish i =>
    simp only [applyAction] at h
    cases hg : s.tasks.get? i with
    | none => rw [hg] at h; exact absurd h (by simp)
    | some t =>
      rw [hg] at h
      cases t with
      | waiting => exact absurd h (by simp)
      | active n =>
        cases n with
        | zero =>
          dsimp only at h
          injection h with h
          subst h
          have hex := countP_set_exchange isActive s.tasks i
            TaskSt.done (TaskSt.active 0) hg
          simp [isActive] at hex
          simp only [countActive] at *
          omega
        | succ m => exact absurd h (by simp)
      | done => exact absurd h (by simp)

theorem runActions_countActive_le (env : PoolEnv) :
    ∀ (acts : List PoolAction) (s s' : PoolState),
      countActive s.tasks ≤ env.cap → runActions env s acts = some s' →
      countActive s'.tasks ≤ env.cap := by
  intro acts
  induction acts with
  | nil =>
    intro s s' hle h
    simp only [runActions] at h
    injection h with h
    subst h
    exact hle
  | cons a rest ih =>
    intro s s' hle h
    simp only [runActions] at h
    cases ha : applyAction env s a with
    | none => rw [ha] at h; exact absurd h (by simp)
    | some s1 =>
      rw [ha] at h
      exact ih s1 s' (applyAction_countActive_le env s s1 a hle ha) h

theorem countActive_initPool (env : PoolEnv) :
    countActive (initPool env).tasks = 0 := by
  simp only [initPool, countActive]
  induction env.urls with
  | nil => rfl
  | cons u us ih => simpa [List.countP_cons, isActive] using ih

/-- The order invariant: lengths match the input, a finished task's slot
holds exactly the result for its own input URL, and an unfinished task's
slot is still empty. -/
def slotsIndexed (env : PoolEnv) (s : PoolState) : Prop :=
  s.tasks.length = env.urls.length ∧ s.slots.length = env.urls.length ∧
  ∀ i t, s.tasks.get? i = some t →
    (isDone t = true →
      s.slots.get? i = some (some (env.resultOf (env.urls.getD i "")))) ∧
    (isDone t = false → s.slots.get? i = some none)

theorem slotsIndexed_init (env : PoolEnv) : slotsIndexed env (initPool env) := by
  refine ⟨by simp [initPool], by simp [initPool], ?_⟩
  intro i t ht
  simp only [initPool, List.get?_map] at ht ⊢
  cases hu : env.urls.get? i with
  | none => rw [hu] at ht; cases ht
  | some u =>
    rw [hu] at ht
    injection ht with ht
    subst ht
    constructor
    · intro hd; simp [isDone] at hd
    · intro _; rfl

theorem slotsIndexed_step (env : PoolEnv) (s s' : PoolState) (a : PoolAction)
    (hinv : slotsIndexed env s) (h : applyAction env s a = some s') :
    slotsIndexed env s' := by
  obtain ⟨hlt, hls, hidx⟩ := hinv
  cases a with
  | acquire i =>
    simp only [applyAction] at h
    cases hg : s.tasks.get? i with
    | none => rw [hg] at h; exact absurd h (by simp)
    | some t =>
      rw [hg] at h
      cases t with
      | waiting =>
        dsimp only at h
        split at h
        next =>
          injection h with h
          subst h
          refine ⟨by simpa using hlt, by simpa using hls, ?_⟩
          intro j t' ht'
          dsimp only at ht' ⊢
          by_cases hij : i = j
          · subst hij
            rw [List.get?_set_eq_of_lt _ (lt_length_of_get?_some hg)] at ht'
            injection ht' with ht'
            subst ht'
            refine ⟨fun hd => by simp [isDone] at hd, fun _ => ?_⟩
            exact (hidx i _ hg).2 (by simp [isDone])
          · rw [List.get?_set_ne _ _ hij] at ht'
            exact hidx j t' ht'
        next => exact absurd h (by simp)
      | active n => exact absurd h (by simp)
      | done => exact absurd h (by simp)
  | work i =>
    simp only [applyAction] at h
    cases hg : s.tasks.get? i with
    | none => rw [hg] at h; exact absurd h (by simp)
    | some t =>
      rw [hg] at h
      cases t with
      | waiting => exact absurd h (by simp)
      | active n =>
        cases n with
        | zero => exact absurd h (by simp)
        | succ m =>
          dsimp only at h
          injection h with h
          subst h
          refine ⟨by simpa using hlt, by simpa using hls, ?_⟩
          intro j t' ht'
          dsimp only at ht' ⊢
          by_cases hij : i = j
          · subst hij
            rw [List.get?_set_eq_of_lt _ (lt_length_of_get?_some hg)] at ht'
            injection ht' with ht'
            subst ht'
            refine ⟨fun hd => by simp [isDone] at hd, fun _ => ?_⟩
            exact (hidx i _ hg).2 (by simp [isDone])
          · rw [List.get?_set_ne _ _ hij] at ht'
            exact hidx j t' ht'
      | done => exact absurd h (by simp)
  | finish i =>
    simp only [applyAction] at h
    cases hg : s.tasks.get? i with
    | none => rw [hg] at h; exact absurd h (by simp)
    | some t =>
      rw [hg] at h
      cases t with
      | waiting => exact absurd h (by simp)
      | active n =>
        cases n with
        | zero =>
          dsimp only at h
          injection h with h
          subst h
          have hi : i < s.tasks.length := lt_length_of_get?_some hg
          refine ⟨by simpa using hlt, by simpa using hls, ?_⟩
          intro j t' ht'
          dsimp only at ht' ⊢
          by_cases hij : i = j
          · subst hij
            rw [List.get?_set_eq_of_lt _ hi] at ht'
            injection ht' with ht'
            subst ht'
            refine ⟨fun _ => ?_, fun hd => by simp [isDone] at hd⟩
            rw [List.get?_set_eq_of_lt _ (by omega : i < s.slots.length)]
          · rw [List.get?_set_ne _ _ hij] at ht'
            have hold := hidx j t' ht'
            refine ⟨fun hd => ?_, fun hd => ?_⟩
            · rw [List.get?_set_ne _ _ hij]
              exact hold.1 hd
            · rw [List.get?_set_ne _ _ hij]
              exact hold.2 hd
        | succ m => exact absurd h (by simp)
      | done => exact absurd h (by simp)

theorem runActions_slotsIndexed (env : PoolEnv) :
    ∀ (acts : List PoolAction) (s s' : PoolState),
      slotsIndexed env s → runActions env s acts = some s' →
      slotsIndexed env s' := by
  intro acts
  induction acts with
  | nil =>
    intro s s' hinv h
    simp only [runActions] at h
    injection h with h
    subst h
    exact hinv
  | cons a rest ih =>
    intro s s' hinv h
    simp only [runActions] at h
    cases ha : applyAction env s a with
    | none => rw [ha] at h; exact absurd h (by simp)
    | some s1 =>
      rw [ha] at h
      exact ih s1 s' (slotsIndexed_step env s s1 a hinv ha) h

theorem slots_of_allDone (env : PoolEnv) (s : PoolState)
    (hinv : slotsIndexed env s) (hdone : allDone s = true) :
    s.slots = env.urls.map (fun u => some (env.resultOf u)) := by
  obtain ⟨hlt, hls, hidx⟩ := hinv
  apply List.ext_get?
  intro n
  rw [List.get?_map]
  by_cases hn : n < env.urls.length
  · cases hg : s.tasks.get? n with
    | none =>
      rw [List.get?_eq_none] at hg
      omega
    | some t =>
      have hd : isDone t = true :=
        List.all_eq_true.mp hdone t (List.get?_mem hg)
      rw [(hidx n t hg).1 hd]
      cases hu : env.urls.get? n with
      | none =>
        rw [List.get?_eq_none] at hu
        omega
      | some u =>
        have hgd : env.urls.getD n "" = u := by
          rw [List.getD_eq_get?, hu]
          rfl
        rw [hgd]
        rfl
  · rw [List.get?_eq_none.mpr (by omega : env.urls.length ≤ n),
      List.get?_eq_none.mpr (by omega : s.slots.length ≤ n)]
    rfl

/-! ## C2: gather returns one record per URL, in input order -/

/-- C2: starting every `scrape_plan` task from the initial pool state,
any scheduler interleaving that completes all tasks leaves the `gather`
result list with exactly one entry per input URL, where position `i`
holds the record `scrape_plan` produced for the URL at position `i` of
the input — indexed by input order, not completion order. -/
theorem gather_input_order (senv : ScrapeEnv) (urls : List String)
    (durs : List Nat) (cap : Nat) (acts : List PoolAction) (s : PoolState)
    (hrun : runActions ⟨urls, durs, cap, scrape_plan senv⟩
        (initPool ⟨urls, durs, cap, scrape_plan senv⟩) acts = some s)
    (hdone : allDone s = true) :
    s.slots.length = urls.length ∧
      s.slots = urls.map (fun u => some (scrape_plan senv u)) := by
  have hinv := runActions_slotsIndexed ⟨urls, durs, cap, scrape_plan senv⟩
    acts _ s (slotsIndexed_init _) hrun
  have heq := slots_of_allDone _ s hinv hdone
  exact ⟨by rw [heq]; simp, heq⟩

theorem gather_input_order_witness :
    sPool2.slots = ["a", "b"].map (fun u => some (scrape_plan envNavFailA u)) :=
  (gather_input_order envNavFailA ["a", "b"] [1, 0] 2
    [PoolAction.acquire 0, PoolAction.acquire 1, PoolAction.finish 1,
     PoolAction.work 0, PoolAction.finish 0] sPool2
    (by decide) (by decide)).2

/-! ## C9: the semaphore bounds the number of active workers -/

/-- C9: along every scheduler trace of the pool running `scrape_plan`
tasks, every reachable state has at most `cap` workers active (holding a
semaphore slot between acquisition and release). -/
theorem pool_bounded_concurrency (senv : ScrapeEnv) (urls : List String)
    (durs : List Nat) (cap : Nat) (acts : List PoolAction) (s : PoolState)
    (hrun : runActions ⟨urls, durs, cap, scrape_plan senv⟩
        (initPool ⟨urls, durs, cap, scrape_plan senv⟩) acts = some s) :
    countActive s.tasks ≤ cap := by
  refine runActions_countActive_le _ acts _ s ?_ hrun
  rw [countActive_initPool]
  exact Nat.zero_le _

theorem pool_bounded_concurrency_witness :
    countActive sPool9.tasks ≤ 2 :=
  pool_bounded_concurrency envNavFailA ["u1", "u2", "u3", "u4", "u5"]
    [2, 1, 1, 1, 1] 2
    [PoolAction.acquire 0, PoolAction.acquire 1, PoolAction.work 0] sPool9
    (by decide)

end Scraper
